import Mathlib

/-!
Verification of the reference-resolution core of `aws_sam_cli_refsolver`
(`src/aws_sam_cli_refsolver/__init__.py`).

The embedding models Python/JSON values by the inductive `JValue`; Python
dictionaries become association lists (Python dictionaries preserve insertion
order and have unique keys, assignment overwrites in place, appends at the
end).  CDK stack artifacts become the structure `Stack`, boto3 sessions the
structure `Session`, and the single remote `describe_stack_resource` call an
oracle function passed as a parameter.  Exceptions become `Except PyError`,
where `PyError` records the exception class and message.  The recursive
nested-stack search in `find_resource` is depth-bounded by a fuel parameter:
at depth 0 a nested recursion behaves as if the nested search found nothing
(Python has no such bound; every terminating Python run is reproduced by any
sufficiently large fuel, and the scan of the resources of the current stack
is performed in full at every fuel, exactly as in the source).
-/

/-- Model of a Python/JSON value as it appears in synthesized CloudFormation
templates: strings, integers, booleans, `None`, dictionaries and lists. -/
inductive JValue where
  | str (s : String)
  | int (n : Int)
  | bool (b : Bool)
  | null
  | dict (entries : List (String × JValue))
  | list (items : List JValue)

mutual

/-- Structural equality of two `JValue`s, modelling Python `==` on the
JSON-like values that occur in templates. -/
def jeq : JValue → JValue → Bool
  | JValue.str a, JValue.str b => a == b
  | JValue.int a, JValue.int b => a == b
  | JValue.bool a, JValue.bool b => a == b
  | JValue.null, JValue.null => true
  | JValue.dict a, JValue.dict b => jeqEntries a b
  | JValue.list a, JValue.list b => jeqItems a b
  | _, _ => false

/-- Equality of dictionary entry lists, key by key and value by value. -/
def jeqEntries : List (String × JValue) → List (String × JValue) → Bool
  | [], [] => true
  | (k1, v1) :: r1, (k2, v2) :: r2 => k1 == k2 && jeq v1 v2 && jeqEntries r1 r2
  | _, _ => false

/-- Equality of list items, position by position. -/
def jeqItems : List JValue → List JValue → Bool
  | [], [] => true
  | v1 :: r1, v2 :: r2 => jeq v1 v2 && jeqItems r1 r2
  | _, _ => false

end

/-- Python truthiness of a value: empty strings, zero, `False`, `None`, empty
dictionaries and empty lists are falsy; everything else is truthy. -/
def truthy : JValue → Bool
  | JValue.str s => !(s == "")
  | JValue.int n => !(n == 0)
  | JValue.bool b => b
  | JValue.null => false
  | JValue.dict es => !es.isEmpty
  | JValue.list xs => !xs.isEmpty

mutual

/-- Python `repr` of a value (string escaping inside quoted strings is not
modelled; the templates under consideration contain no quote characters). -/
def pyRepr : JValue → String
  | JValue.str s => "\x27" ++ s ++ "\x27"
  | JValue.int n => toString n
  | JValue.bool b => if b then "True" else "False"
  | JValue.null => "None"
  | JValue.dict es => "\x7b" ++ pyReprEntries es ++ "\x7d"
  | JValue.list xs => "[" ++ pyReprItems xs ++ "]"

/-- Helper of `pyRepr` for dictionary entries, comma separated. -/
def pyReprEntries : List (String × JValue) → String
  | [] => ""
  | [(k, v)] => "\x27" ++ k ++ "\x27: " ++ pyRepr v
  | (k, v) :: rest => "\x27" ++ k ++ "\x27: " ++ pyRepr v ++ ", " ++ pyReprEntries rest

/-- Helper of `pyRepr` for list items, comma separated. -/
def pyReprItems : List JValue → String
  | [] => ""
  | [v] => pyRepr v
  | v :: rest => pyRepr v ++ ", " ++ pyReprItems rest

end

/-- Python `str()` of a value: a string is returned unchanged, every other
value is rendered as by `repr`. -/
def pyStr : JValue → String
  | JValue.str s => s
  | v => pyRepr v

/-- Lookup of a key in a string-keyed association list (the first entry
wins; the lists built here have unique keys, as Python dictionaries do). -/
def slookup {α : Type} (d : List (String × α)) (k : String) : Option α :=
  match d with
  | [] => none
  | (a, b) :: rest => if k = a then some b else slookup rest k

/-- Python `d.get(k)` on a string-keyed dictionary: `None` (here `none`) when
the key is absent. -/
def dget (d : List (String × JValue)) (k : String) : Option JValue :=
  slookup d k

/-- Python `d.get(k, default)` on a string-keyed dictionary. -/
def dgetD (d : List (String × JValue)) (k : String) (dflt : JValue) : JValue :=
  (slookup d k).getD dflt

/-- View a value as a dictionary; a non-dictionary value yields the empty
entry list (in Python, calling `.get` on such a value would raise, a case
outside the well-typed templates the tool operates on). -/
def asDict : JValue → List (String × JValue)
  | JValue.dict es => es
  | _ => []

/-- View a value as a list; a non-list value yields the empty list. -/
def asList : JValue → List JValue
  | JValue.list xs => xs
  | _ => []

/-- Whether the first list is an initial run of the second. -/
def leadsWith : List Char → List Char → Bool
  | [], _ => true
  | _ :: _, [] => false
  | a :: as, b :: bs => a == b && leadsWith as bs

/-- Whether `pat` occurs as a contiguous run of `l`. -/
def subSearch (pat : List Char) : List Char → Bool
  | [] => leadsWith pat []
  | c :: rest => leadsWith pat (c :: rest) || subSearch pat rest

/-- Python substring test `pat in s`. -/
def strContains (s pat : String) : Bool :=
  subSearch pat.toList s.toList

/-- Replace every non-overlapping occurrence of `pat` (scanning left to
right) by `rep`, with a step budget that any list at least as long as the
input satisfies. -/
def replChars (pat rep : List Char) : Nat → List Char → List Char
  | _, [] => []
  | 0, l => l
  | Nat.succ n, c :: rest =>
    if !pat.isEmpty && leadsWith pat (c :: rest) then
      rep ++ replChars pat rep n (List.drop (pat.length - 1) rest)
    else c :: replChars pat rep n rest

/-- Python `s.replace(pat, rep)` for a non-empty pattern. -/
def strReplace (s pat rep : String) : String :=
  String.mk (replChars pat.toList rep.toList s.toList.length s.toList)

/-- The run of characters after the last `/` of the input (the whole input
when it has no `/`), i.e. Python `s.split("/")[-1]`. -/
def lastSegment (acc : List Char) : List Char → List Char
  | [] => acc
  | c :: rest => if c == '/' then lastSegment [] rest else lastSegment (acc ++ [c]) rest

/-- Model of a Python exception: its class (only `TypeError` and `ValueError`
are raised by the code under study) and its message. -/
inductive PyError where
  | typeError (msg : String)
  | valueError (msg : String)
  deriving DecidableEq

/-- Message raised by `resolve_ref` when `ref` is not a dictionary. -/
def refShapeMsg : String := "ref must be a dict"

/-- Message raised by `resolve_ref` when the `Ref` key is absent. -/
def refKeyMsg : String := "ref dict must contain \x27Ref\x27 key"

/-- Message raised by `resolve_ref` when the value under `Ref` is not a
non-empty string. -/
def refValueMsg : String := "ref[\x27Ref\x27] must be a non-empty string"

/-- Message raised by `resolve_ref` when no region can be derived. -/
def noRegionMsg : String :=
  "No region specified. Either configure your boto3 session with a region or deploy the CDK stack with a specific region."

/-- Message raised by both environment extractors on a type mismatch,
parameterized by the expected resource type. -/
def typeMismatchMsg (expected : String) : String :=
  "Resource must be of type " ++ expected

/-- A CDK `CloudFormationStackArtifact`: its stack name, the region of its
environment descriptor, and its CloudFormation template (a dictionary). -/
structure Stack where
  stack_name : String
  region : String
  template : List (String × JValue)

/-- A boto3 session as far as the code observes it: its `region_name`,
which is `None` or a string. -/
structure Session where
  region_name : Option String

/-- Python `resource.get("Type") == t` where a missing or non-string type tag
compares unequal to the string `t`. -/
def typeIs (r : List (String × JValue)) (t : String) : Bool :=
  match dget r "Type" with
  | some (JValue.str s) => s == t
  | _ => false

/-- The `aws:cdk:path` metadata string of a resource,
`resource.get("Metadata", {}).get("aws:cdk:path", "")`. -/
def pathOf (r : List (String × JValue)) : String :=
  match dget (asDict (dgetD r "Metadata" (JValue.dict []))) "aws:cdk:path" with
  | some (JValue.str s) => s
  | _ => ""

/-- The resource map of a stack template, `template.get("Resources", {})`,
as the list of (logical id, resource) pairs in iteration order. -/
def resourcesOf (template : List (String × JValue)) : List (String × JValue) :=
  asDict (dgetD template "Resources" (JValue.dict []))

/-- Whether a resource satisfies both predicates of a `find_resource` query:
its type tag equals `rt` and its metadata path contains `/lid/`. -/
def resMatches (rt lid : String) (rv : JValue) : Bool :=
  typeIs (asDict rv) rt && strContains (pathOf (asDict rv)) ("/" ++ lid ++ "/")

/-- The stack name derived from a nested-stack template URL:
`nested.split("/")[-1].replace(".json", "")`. -/
def derivedName (url : String) : String :=
  strReplace (String.mk (lastSegment [] url.toList)) ".json" ""

/-- A successful `find_resource` result: the resource definition, its
containing stack, and its synthesized (CloudFormation) logical id, in the
order the source returns them. -/
abbrev FindRes := JValue × Stack × String

/-- The inner loop of the nested-stack branch of `search_stack`: scan the
assembly's stacks for those whose name equals the file-derived name, search
each with `recurse`, and return the first hit. -/
def trySiblings (recurse : List (String × JValue) → Stack → Option FindRes)
    (name : String) : List Stack → Option FindRes
  | [] => none
  | st :: rest =>
    if st.stack_name = name then
      match recurse st.template st with
      | some r => some r
      | none => trySiblings recurse name rest
    else trySiblings recurse name rest

/-- The resource loop of `search_stack`, parameterized by the function used
to recurse into a sibling stack's template: skip resources whose type does
not match; return a candidate whose metadata path contains `/lid/`; for a
candidate of the nested-stack type with a non-empty string `TemplateURL`,
search the matching sibling stacks and keep scanning when that fails. -/
def scanResources (recurse : List (String × JValue) → Stack → Option FindRes)
    (rt lid : String) (allStacks : List Stack) :
    List (String × JValue) → Stack → Option FindRes
  | [], _ => none
  | (cid, rv) :: rest, cur =>
    let r := asDict rv
    if typeIs r rt then
      if strContains (pathOf r) ("/" ++ lid ++ "/") then
        some (rv, cur, cid)
      else
        if typeIs r "AWS::CloudFormation::Stack" then
          match dgetD (asDict (dgetD r "Properties" (JValue.dict []))) "TemplateURL" (JValue.str "") with
          | JValue.str url =>
            if url = "" then scanResources recurse rt lid allStacks rest cur
            else
              match trySiblings recurse (derivedName url) allStacks with
              | some res => some res
              | none => scanResources recurse rt lid allStacks rest cur
          | _ => scanResources recurse rt lid allStacks rest cur
        else scanResources recurse rt lid allStacks rest cur
    else scanResources recurse rt lid allStacks rest cur

/-- `search_stack` of the source at a given nesting depth bound: scan the
template's resources, recursing into sibling stacks one level shallower.
At depth 0 a nested recursion yields no result. -/
def searchStack : Nat → String → String → List Stack →
    List (String × JValue) → Stack → Option FindRes
  | 0, rt, lid, all, template, cur =>
    scanResources (fun _ _ => none) rt lid all (resourcesOf template) cur
  | Nat.succ n, rt, lid, all, template, cur =>
    scanResources (fun tpl st => searchStack n rt lid all tpl st) rt lid all
      (resourcesOf template) cur

/-- The outer loop of `find_resource`: search each stack of the assembly in
order, returning the first hit. -/
def findInStacks (fuel : Nat) (rt lid : String) (all : List Stack) :
    List Stack → Option FindRes
  | [] => none
  | st :: rest =>
    match searchStack fuel rt lid all st.template st with
    | some r => some r
    | none => findInStacks fuel rt lid all rest

/-- `find_resource(assembly, logical_id, resource_type)`: find a resource by
author-assigned logical id and type, returning the resource, its containing
stack and its synthesized id, or `none`. -/
def find_resource (fuel : Nat) (assembly : List Stack)
    (logical_id resource_type : String) : Option FindRes :=
  findInStacks fuel resource_type logical_id assembly assembly

/-- The sibling-stack step of the depth-first enumeration of matches: for
each assembly stack whose name equals the file-derived name, in order, list
the matches `enum` finds in its template. -/
def visitSiblings (enum : List (String × JValue) → Stack → List FindRes)
    (name : String) : List Stack → List FindRes
  | [] => []
  | st :: rest =>
    if st.stack_name = name then enum st.template st ++ visitSiblings enum name rest
    else visitSiblings enum name rest

/-- The depth-first enumeration of the matches of a resource list, following
the amended search-order description: resources in resource-map order; a
candidate whose path matches is listed at its position; a nested-stack
candidate's sibling-stack matches come right after it and before the later
resources of the current stack. -/
def matchesScan (enum : List (String × JValue) → Stack → List FindRes)
    (rt lid : String) (allStacks : List Stack) :
    List (String × JValue) → Stack → List FindRes
  | [], _ => []
  | (cid, rv) :: rest, cur =>
    let r := asDict rv
    if typeIs r rt then
      (if strContains (pathOf r) ("/" ++ lid ++ "/") then [(rv, cur, cid)] else []) ++
      ((if typeIs r "AWS::CloudFormation::Stack" then
        match dgetD (asDict (dgetD r "Properties" (JValue.dict []))) "TemplateURL"
            (JValue.str "") with
        | JValue.str url =>
          if url = "" then [] else visitSiblings enum (derivedName url) allStacks
        | _ => []
      else []) ++
      matchesScan enum rt lid allStacks rest cur)
    else matchesScan enum rt lid allStacks rest cur

/-- The depth-first enumeration of one stack's matches at a given nesting
depth bound, mirroring `searchStack`. -/
def stackMatches : Nat → String → String → List Stack →
    List (String × JValue) → Stack → List FindRes
  | 0, rt, lid, all, template, cur =>
    matchesScan (fun _ _ => []) rt lid all (resourcesOf template) cur
  | Nat.succ n, rt, lid, all, template, cur =>
    matchesScan (fun tpl st => stackMatches n rt lid all tpl st) rt lid all
      (resourcesOf template) cur

/-- The depth-first enumeration over a list of stacks, in stack-list
order. -/
def stacksMatches (fuel : Nat) (rt lid : String) (all : List Stack) :
    List Stack → List FindRes
  | [] => []
  | st :: rest =>
    stackMatches fuel rt lid all st.template st ++ stacksMatches fuel rt lid all rest

/-- All matches of a query over an assembly, in the search's depth-first
order: stack-list order, then resource-map order, recursing into
nested-stack candidates before later resources.  `find_resource` returns
exactly the first element of this list. -/
def dfsMatchList (fuel : Nat) (rt lid : String) (assembly : List Stack) : List FindRes :=
  stacksMatches fuel rt lid assembly assembly

/-- The validation prefix of `resolve_ref`: reject a non-dictionary `ref`
with `TypeError`, a missing `Ref` key and a non-string or empty value with
distinct-by-message `ValueError`s, and return the logical id otherwise. -/
def validateRef (ref : JValue) : Except PyError String :=
  match ref with
  | JValue.dict es =>
    match slookup es "Ref" with
    | none => Except.error (PyError.valueError refKeyMsg)
    | some (JValue.str s) =>
      if s = "" then Except.error (PyError.valueError refValueMsg)
      else Except.ok s
    | some _ => Except.error (PyError.valueError refValueMsg)
  | _ => Except.error (PyError.typeError refShapeMsg)

/-- Region derivation of `resolve_ref`: a truthy session `region_name` wins;
otherwise the stack's environment region unless it is the placeholder
`unknown-region`; otherwise a `ValueError`. -/
def deriveRegion (sess : Session) (stack : Stack) : Except PyError String :=
  match sess.region_name with
  | some r =>
    if r = "" then
      if stack.region = "unknown-region" then Except.error (PyError.valueError noRegionMsg)
      else Except.ok stack.region
    else Except.ok r
  | none =>
    if stack.region = "unknown-region" then Except.error (PyError.valueError noRegionMsg)
    else Except.ok stack.region

/-- `resolve_ref(stack, session, ref)`: validate the reference, derive a
region, then issue the single `describe_stack_resource` call — modelled by
the oracle `describe`, applied to the derived region, the stack name and the
logical id — and return its physical-id field.  Remote failures are the
oracle's `error` results and propagate unmodified. -/
def resolve_ref (describe : String → String → String → Except PyError String)
    (stack : Stack) (sess : Session) (ref : JValue) : Except PyError String :=
  match validateRef ref with
  | Except.error e => Except.error e
  | Except.ok logical_id =>
    match deriveRegion sess stack with
    | Except.error e => Except.error e
    | Except.ok region => describe region stack.stack_name logical_id

/-- The expression `function.get("Properties", {}).get("Environment", {})
.get("Variables", {})` of the function-kind extractor. -/
def lambdaVarsOf (function : List (String × JValue)) : JValue :=
  dgetD (asDict (dgetD (asDict (dgetD function "Properties" (JValue.dict [])))
    "Environment" (JValue.dict []))) "Variables" (JValue.dict [])

/-- `extract_lambda_function_environment_vars`: guard the resource type tag,
then return `Properties.Environment.Variables` with `{}` defaults. -/
def extract_lambda_function_environment_vars (function : List (String × JValue)) :
    Except PyError JValue :=
  match dget function "Type" with
  | some (JValue.str t) =>
    if t = "AWS::Lambda::Function" then Except.ok (lambdaVarsOf function)
    else Except.error (PyError.valueError (typeMismatchMsg "AWS::Lambda::Function"))
  | _ => Except.error (PyError.valueError (typeMismatchMsg "AWS::Lambda::Function"))

/-- Python dictionary assignment `d[k] = v` for a `JValue`-keyed dictionary:
overwrite the value of the entry holding `k` in place (keeping the stored key
object and its position, as Python does; a Python dictionary holds each key at
most once, so the first occurrence is the only one), or append `(k, v)`. -/
def dictInsertJ (k v : JValue) : List (JValue × JValue) → List (JValue × JValue)
  | [] => [(k, v)]
  | (a, b) :: rest => if jeq a k then (a, v) :: rest else (a, b) :: dictInsertJ k v rest

/-- Lookup in a `JValue`-keyed dictionary. -/
def jlookup (d : List (JValue × JValue)) (k : JValue) : Option JValue :=
  match d with
  | [] => none
  | (a, b) :: rest => if jeq a k then some b else jlookup rest k

/-- The `Environment` entry list of one container definition,
`container.get("Environment", [])`. -/
def envEntriesOf (container : JValue) : List JValue :=
  asList (dgetD (asDict container) "Environment" (JValue.list []))

/-- The body of the entry loop of the task extractor: read `Name` and
`Value` with `None` defaults and store the pair only when both are truthy. -/
def insertEnvEntry (acc : List (JValue × JValue)) (e : JValue) : List (JValue × JValue) :=
  match dget (asDict e) "Name", dget (asDict e) "Value" with
  | some n, some v => if truthy n && truthy v then dictInsertJ n v acc else acc
  | _, _ => acc

/-- The container/entry double loop of the task extractor, flattening all
containers' environment entries into one dictionary. -/
def flattenTaskEnv (containers : List JValue) : List (JValue × JValue) :=
  containers.foldl (fun acc c => (envEntriesOf c).foldl insertEnvEntry acc) []

/-- The container definition list of a task resource,
`task.get("Properties", {}).get("ContainerDefinitions", [])`. -/
def containersOf (task : List (String × JValue)) : List JValue :=
  asList (dgetD (asDict (dgetD task "Properties" (JValue.dict []))) "ContainerDefinitions"
    (JValue.list []))

/-- `extract_ecs_task_definition_environment_vars`: guard the resource type
tag, then flatten all containers' environment entries. -/
def extract_ecs_task_definition_environment_vars (task : List (String × JValue)) :
    Except PyError (List (JValue × JValue)) :=
  match dget task "Type" with
  | some (JValue.str t) =>
    if t = "AWS::ECS::TaskDefinition" then
      Except.ok (flattenTaskEnv (containersOf task))
    else Except.error (PyError.valueError (typeMismatchMsg "AWS::ECS::TaskDefinition"))
  | _ => Except.error (PyError.valueError (typeMismatchMsg "AWS::ECS::TaskDefinition"))

/-- The flattened sequence of all containers' environment entries of a task,
in container order then entry order. -/
def concatEntries : List JValue → List JValue
  | [] => []
  | c :: rest => envEntriesOf c ++ concatEntries rest

/-- The value an environment entry contributes under the string name `n`:
its `Value` when its `Name` is exactly the string `n` and both name and
value are truthy; nothing otherwise. -/
def entryHit (e : JValue) (n : String) : Option JValue :=
  match dget (asDict e) "Name", dget (asDict e) "Value" with
  | some (JValue.str m), some v =>
    if truthy (JValue.str m) && truthy v && m == n then some v else none
  | _, _ => none

/-- The value of the last entry of `es` that contributes under the name `n`
(later entries win; entries with missing or falsy name or value never
contribute). -/
def lastTruthyStr : List JValue → String → Option JValue
  | [], _ => none
  | e :: rest, n =>
    match lastTruthyStr rest n with
    | some v => some v
    | none => entryHit e n

/-- Whether an environment value is treated as a reference by the
orchestrator: `isinstance(value, dict) and "Ref" in value`. -/
def isRefVal : JValue → Bool
  | JValue.dict es => (slookup es "Ref").isSome
  | _ => false

/-- One iteration of the orchestrator's resolution loop on a value: a
dictionary containing the key `Ref` is resolved remotely via `resolve_ref`;
every other value is stringified with `str`. -/
def resolveEntry (describe : String → String → String → Except PyError String)
    (stack : Stack) (sess : Session) (v : JValue) : Except PyError String :=
  match v with
  | JValue.dict es =>
    if (slookup es "Ref").isSome then resolve_ref describe stack sess (JValue.dict es)
    else Except.ok (pyStr (JValue.dict es))
  | v => Except.ok (pyStr v)

/-- Python dictionary assignment `d[k] = v` for a string-keyed dictionary:
overwrite the value of the entry holding `k` in place, or append `(k, v)`. -/
def dictInsertS (k v : String) : List (String × String) → List (String × String)
  | [] => [(k, v)]
  | (a, b) :: rest => if a = k then (a, v) :: rest else (a, b) :: dictInsertS k v rest

/-- The orchestrator's resolution loop over the extracted environment
entries: resolve each value in order, aborting on the first failure, exactly
as an uncaught exception aborts the Python loop. -/
def resolveEnv (describe : String → String → String → Except PyError String)
    (stack : Stack) (sess : Session) :
    List (String × JValue) → List (String × String) → Except PyError (List (String × String))
  | [], acc => Except.ok acc
  | (k, v) :: rest, acc =>
    match resolveEntry describe stack sess v with
    | Except.ok s => resolveEnv describe stack sess rest (dictInsertS k s acc)
    | Except.error e => Except.error e

/-- The "function not found" message of the orchestrator. -/
def functionNotFoundMsg (function_logical_id : String) : String :=
  "Lambda function \x27" ++ function_logical_id ++ "\x27 not found in assembly"

/-- `generate_sam_env_vars(assembly, session, function_logical_id)`: locate
the Lambda function by its author-assigned id, extract its declared
environment, resolve every `Ref`-shaped value and stringify the rest, and
return the single-entry mapping keyed by the caller-supplied id. -/
def generate_sam_env_vars (describe : String → String → String → Except PyError String)
    (fuel : Nat) (assembly : List Stack) (sess : Session)
    (function_logical_id : String) :
    Except PyError (List (String × List (String × String))) :=
  match find_resource fuel assembly function_logical_id "AWS::Lambda::Function" with
  | none => Except.error (PyError.valueError (functionNotFoundMsg function_logical_id))
  | some (rv, stack, _cid) =>
    match extract_lambda_function_environment_vars (asDict rv) with
    | Except.error e => Except.error e
    | Except.ok varsVal =>
      match resolveEnv describe stack sess (asDict varsVal) [] with
      | Except.error e => Except.error e
      | Except.ok resolved => Except.ok [(function_logical_id, resolved)]

/-- A well-formed `find_resource` result for a query: the stack is one of the
assembly's, the pair is an entry of its resource map, and the resource
satisfies both query predicates. -/
def SoundRes (rt lid : String) (all : List Stack) (r : FindRes) : Prop :=
  r.2.1 ∈ all ∧ (r.2.2, r.1) ∈ resourcesOf r.2.1.template ∧ resMatches rt lid r.1 = true

/-- A Lambda function resource with one `Ref` environment entry and one plain
string entry, used as a concrete test fixture. -/
def exLamRes : JValue := JValue.dict [("Type", JValue.str "AWS::Lambda::Function"),
  ("Properties", JValue.dict [("Environment", JValue.dict [("Variables",
     JValue.dict [("BUCKET_NAME", JValue.dict [("Ref", JValue.str "BucketLogicalId")]),
                  ("STAGE", JValue.str "dev")])])]),
  ("Metadata", JValue.dict [("aws:cdk:path", JValue.str "App/ExampleFunction/Resource")])]

/-- A one-stack assembly holding `exLamRes`. -/
def exStack : Stack :=
  Stack.mk "MyStack" "us-west-2" [("Resources", JValue.dict [("ExampleFunction123", exLamRes)])]

/-- A describe oracle that knows the bucket's physical id. -/
def exDescribe : String → String → String → Except PyError String :=
  fun _ _ lid =>
    if lid = "BucketLogicalId" then Except.ok "my-bucket-abc123"
    else Except.error (PyError.valueError "no such resource")

/-- A session with an explicit region. -/
def exSession : Session := Session.mk (some "us-west-2")

/-- An ECS task definition with two containers whose entry lists collide on
the name `X`, one empty-string value and one entry with no value. -/
def exTask : List (String × JValue) := [("Type", JValue.str "AWS::ECS::TaskDefinition"),
  ("Properties", JValue.dict [("ContainerDefinitions", JValue.list [
     JValue.dict [("Environment", JValue.list [
        JValue.dict [("Name", JValue.str "X"), ("Value", JValue.str "one")],
        JValue.dict [("Name", JValue.str "E"), ("Value", JValue.str "")]])],
     JValue.dict [("Environment", JValue.list [
        JValue.dict [("Name", JValue.str "X"), ("Value", JValue.str "two")],
        JValue.dict [("Name", JValue.str "Y")]])]])])]

/-- A container environment entry whose `Name` and `Value` keys are both
present, the value being the empty string. -/
def c5Entry : JValue := JValue.dict [("Name", JValue.str "X"), ("Value", JValue.str "")]

/-- An ECS task definition with a single container holding only `c5Entry`. -/
def c5Task : List (String × JValue) := [("Type", JValue.str "AWS::ECS::TaskDefinition"),
  ("Properties", JValue.dict [("ContainerDefinitions", JValue.list [
     JValue.dict [("Environment", JValue.list [c5Entry])]])])]

/-- A stack synthesized without a pinned region. -/
def unknownStack : Stack := Stack.mk "EnvLess" "unknown-region" []

/-- A nested-stack pointer resource whose template file name resolves to the
sibling stack `LambdaNested`. -/
def c1PointerRes : JValue := JValue.dict [("Type", JValue.str "AWS::CloudFormation::Stack"),
  ("Properties", JValue.dict [("TemplateURL", JValue.str "https://s3.example/LambdaNested.json")]),
  ("Metadata", JValue.dict [("aws:cdk:path", JValue.str "App/ChildStack/Resource")])]

/-- The top-level stack holding only the nested-stack pointer. -/
def c1Main : Stack :=
  Stack.mk "Main" "us-east-1" [("Resources", JValue.dict [("Child", c1PointerRes)])]

/-- A Lambda resource whose metadata path contains `/X/`. -/
def c1Lam : JValue := JValue.dict [("Type", JValue.str "AWS::Lambda::Function"),
  ("Metadata", JValue.dict [("aws:cdk:path", JValue.str "App/X/Resource")])]

/-- The sibling stack the nested-stack pointer denotes, holding `c1Lam`. -/
def c1Nested : Stack :=
  Stack.mk "LambdaNested" "us-east-1" [("Resources", JValue.dict [("X123", c1Lam)])]

/-- The two-stack assembly of the nested-traversal scenario. -/
def c1Assembly : List Stack := [c1Main, c1Nested]

/-- A nested-stack-typed pointer resource in the first stack of the C6
scenario, pointing at the sibling stack `Nested`, its own path not matching
the query. -/
def c6ResA : JValue := JValue.dict [("Type", JValue.str "AWS::CloudFormation::Stack"),
  ("Properties", JValue.dict [("TemplateURL", JValue.str "https://s3.example/Nested.json")]),
  ("Metadata", JValue.dict [("aws:cdk:path", JValue.str "App/Other/Resource")])]

/-- A nested-stack-typed resource of the first stack whose path matches the
query `X`; it sits after `c6ResA` in the resource map. -/
def c6ResB : JValue := JValue.dict [("Type", JValue.str "AWS::CloudFormation::Stack"),
  ("Metadata", JValue.dict [("aws:cdk:path", JValue.str "App/X/Resource")])]

/-- A nested-stack-typed resource of the second stack whose path also
matches the query `X`. -/
def c6ResC : JValue := JValue.dict [("Type", JValue.str "AWS::CloudFormation::Stack"),
  ("Metadata", JValue.dict [("aws:cdk:path", JValue.str "App/X/Resource2")])]

/-- The first stack of the C6 scenario. -/
def c6Main : Stack :=
  Stack.mk "Main" "us-east-1"
    [("Resources", JValue.dict [("A", c6ResA), ("B", c6ResB)])]

/-- The second stack of the C6 scenario. -/
def c6Nested : Stack :=
  Stack.mk "Nested" "us-east-1" [("Resources", JValue.dict [("C", c6ResC)])]

/-- The two-stack assembly of the C6 scenario. -/
def c6Assembly : List Stack := [c6Main, c6Nested]

theorem trySiblings_sound
    (recurse : List (String × JValue) → Stack → Option FindRes)
    (rt lid : String) (all : List Stack)
    (hrec : ∀ st r, st ∈ all → recurse st.template st = some r → SoundRes rt lid all r)
    (name : String) :
    ∀ (sts : List Stack) (r : FindRes), (∀ s, s ∈ sts → s ∈ all) →
      trySiblings recurse name sts = some r → SoundRes rt lid all r := by
  intro sts
  induction sts with
  | nil => intro r _ h; simp [trySiblings] at h
  | cons st rest ih =>
    intro r hsub h
    simp only [trySiblings] at h
    by_cases hn : st.stack_name = name
    · rw [if_pos hn] at h
      cases hc : recurse st.template st with
      | some r2 =>
        rw [hc] at h
        cases h
        exact hrec st r (hsub st (List.mem_cons_self st rest)) hc
      | none =>
        rw [hc] at h
        exact ih r (fun s hs => hsub s (List.mem_cons_of_mem st hs)) h
    · rw [if_neg hn] at h
      exact ih r (fun s hs => hsub s (List.mem_cons_of_mem st hs)) h

theorem scanResources_sound
    (recurse : List (String × JValue) → Stack → Option FindRes)
    (rt lid : String) (all : List Stack)
    (hrec : ∀ st r, st ∈ all → recurse st.template st = some r → SoundRes rt lid all r) :
    ∀ (res : List (String × JValue)) (cur : Stack) (r : FindRes),
      cur ∈ all → (∀ p, p ∈ res → p ∈ resourcesOf cur.template) →
      scanResources recurse rt lid all res cur = some r → SoundRes rt lid all r := by
  intro res
  induction res with
  | nil => intro cur r _ _ h; simp [scanResources] at h
  | cons p rest ih =>
    intro cur r hcur hsub h
    obtain ⟨cid, rv⟩ := p
    simp only [scanResources] at h
    by_cases h1 : typeIs (asDict rv) rt = true
    · rw [if_pos h1] at h
      by_cases h2 : strContains (pathOf (asDict rv)) ("/" ++ lid ++ "/") = true
      · rw [if_pos h2] at h
        cases h
        refine ⟨hcur, hsub _ (List.mem_cons_self _ rest), ?_⟩
        simp [resMatches, h1, h2]
      · rw [if_neg h2] at h
        have hrest : ∀ p, p ∈ rest → p ∈ resourcesOf cur.template :=
          fun q hq => hsub q (List.mem_cons_of_mem _ hq)
        by_cases h3 : typeIs (asDict rv) "AWS::CloudFormation::Stack" = true
        · rw [if_pos h3] at h
          cases hurl : dgetD (asDict (dgetD (asDict rv) "Properties" (JValue.dict [])))
              "TemplateURL" (JValue.str "") with
          | str url =>
            rw [hurl] at h
            dsimp only at h
            by_cases h4 : url = ""
            · rw [if_pos h4] at h
              exact ih cur r hcur hrest h
            · rw [if_neg h4] at h
              cases htry : trySiblings recurse (derivedName url) all with
              | some res2 =>
                rw [htry] at h
                cases h
                exact trySiblings_sound recurse rt lid all hrec _ all r (fun s hs => hs) htry
              | none =>
                rw [htry] at h
                exact ih cur r hcur hrest h
          | int n => rw [hurl] at h; dsimp only at h; exact ih cur r hcur hrest h
          | bool b => rw [hurl] at h; dsimp only at h; exact ih cur r hcur hrest h
          | null => rw [hurl] at h; dsimp only at h; exact ih cur r hcur hrest h
          | dict es => rw [hurl] at h; dsimp only at h; exact ih cur r hcur hrest h
          | list xs => rw [hurl] at h; dsimp only at h; exact ih cur r hcur hrest h
        · rw [if_neg h3] at h
          exact ih cur r hcur hrest h
    · rw [if_neg h1] at h
      exact ih cur r hcur (fun q hq => hsub q (List.mem_cons_of_mem _ hq)) h

theorem searchStack_sound (rt lid : String) (all : List Stack) :
    ∀ (fuel : Nat) (cur : Stack) (r : FindRes), cur ∈ all →
      searchStack fuel rt lid all cur.template cur = some r → SoundRes rt lid all r := by
  intro fuel
  induction fuel with
  | zero =>
    intro cur r hcur h
    exact scanResources_sound _ rt lid all (fun st r2 _ h2 => by cases h2)
      (resourcesOf cur.template) cur r hcur (fun q hq => hq) h
  | succ n ih =>
    intro cur r hcur h
    exact scanResources_sound _ rt lid all (fun st r2 hst h2 => ih st r2 hst h2)
      (resourcesOf cur.template) cur r hcur (fun q hq => hq) h

theorem findInStacks_sound (fuel : Nat) (rt lid : String) (all : List Stack) :
    ∀ (sts : List Stack) (r : FindRes), (∀ s, s ∈ sts → s ∈ all) →
      findInStacks fuel rt lid all sts = some r → SoundRes rt lid all r := by
  intro sts
  induction sts with
  | nil => intro r _ h; simp [findInStacks] at h
  | cons st rest ih =>
    intro r hsub h
    simp only [findInStacks] at h
    cases hs : searchStack fuel rt lid all st.template st with
    | some r2 =>
      rw [hs] at h
      cases h
      exact searchStack_sound rt lid all fuel st r (hsub st (List.mem_cons_self st rest)) hs
    | none =>
      rw [hs] at h
      exact ih r (fun s hs2 => hsub s (List.mem_cons_of_mem st hs2)) h

theorem find_resource_sound (fuel : Nat) (assembly : List Stack) (lid rt : String)
    (r : FindRes) (h : find_resource fuel assembly lid rt = some r) :
    SoundRes rt lid assembly r :=
  findInStacks_sound fuel rt lid assembly assembly r (fun _ hs => hs) h

theorem scanResources_none
    (recurse : List (String × JValue) → Stack → Option FindRes)
    (rt lid : String) (all : List Stack) :
    ∀ (res : List (String × JValue)) (cur : Stack),
      scanResources recurse rt lid all res cur = none →
      ∀ cid rv, (cid, rv) ∈ res → resMatches rt lid rv = false := by
  intro res
  induction res with
  | nil => intro cur _ cid rv hm; simp at hm
  | cons p rest ih =>
    intro cur h cid rv hm
    obtain ⟨cid0, rv0⟩ := p
    simp only [scanResources] at h
    rcases List.mem_cons.mp hm with hhead | htail
    · rw [Prod.mk.injEq] at hhead
      obtain ⟨hc, hr⟩ := hhead
      subst hc; subst hr
      by_cases h1 : typeIs (asDict rv) rt = true
      · rw [if_pos h1] at h
        by_cases h2 : strContains (pathOf (asDict rv)) ("/" ++ lid ++ "/") = true
        · rw [if_pos h2] at h; cases h
        · rw [if_neg h2] at h
          unfold resMatches
          rw [h1, Bool.true_and]
          exact Bool.eq_false_iff.mpr h2
      · rw [if_neg h1] at h
        unfold resMatches
        rw [Bool.eq_false_iff.mpr h1, Bool.false_and]
    · by_cases h1 : typeIs (asDict rv0) rt = true
      · rw [if_pos h1] at h
        by_cases h2 : strContains (pathOf (asDict rv0)) ("/" ++ lid ++ "/") = true
        · rw [if_pos h2] at h; cases h
        · rw [if_neg h2] at h
          by_cases h3 : typeIs (asDict rv0) "AWS::CloudFormation::Stack" = true
          · rw [if_pos h3] at h
            cases hurl : dgetD (asDict (dgetD (asDict rv0) "Properties" (JValue.dict [])))
                "TemplateURL" (JValue.str "") with
            | str url =>
              rw [hurl] at h
              dsimp only at h
              by_cases h4 : url = ""
              · rw [if_pos h4] at h
                exact ih cur h cid rv htail
              · rw [if_neg h4] at h
                cases htry : trySiblings recurse (derivedName url) all with
                | some res2 => rw [htry] at h; cases h
                | none =>
                  rw [htry] at h
                  exact ih cur h cid rv htail
            | int n => rw [hurl] at h; dsimp only at h; exact ih cur h cid rv htail
            | bool b => rw [hurl] at h; dsimp only at h; exact ih cur h cid rv htail
            | null => rw [hurl] at h; dsimp only at h; exact ih cur h cid rv htail
            | dict es => rw [hurl] at h; dsimp only at h; exact ih cur h cid rv htail
            | list xs => rw [hurl] at h; dsimp only at h; exact ih cur h cid rv htail
          · rw [if_neg h3] at h
            exact ih cur h cid rv htail
      · rw [if_neg h1] at h
        exact ih cur h cid rv htail

theorem searchStack_none (fuel : Nat) (rt lid : String) (all : List Stack)
    (template : List (String × JValue)) (cur : Stack)
    (h : searchStack fuel rt lid all template cur = none) :
    ∀ cid rv, (cid, rv) ∈ resourcesOf template → resMatches rt lid rv = false := by
  cases fuel with
  | zero => exact scanResources_none _ rt lid all (resourcesOf template) cur h
  | succ n => exact scanResources_none _ rt lid all (resourcesOf template) cur h

theorem findInStacks_none (fuel : Nat) (rt lid : String) (all : List Stack) :
    ∀ (sts : List Stack), findInStacks fuel rt lid all sts = none →
      ∀ st, st ∈ sts → ∀ cid rv, (cid, rv) ∈ resourcesOf st.template →
        resMatches rt lid rv = false := by
  intro sts
  induction sts with
  | nil => intro _ st hst; simp at hst
  | cons st0 rest ih =>
    intro h st hst cid rv hm
    simp only [findInStacks] at h
    cases hs : searchStack fuel rt lid all st0.template st0 with
    | some r => rw [hs] at h; cases h
    | none =>
      rw [hs] at h
      rcases List.mem_cons.mp hst with hh | ht
      · subst hh
        exact searchStack_none fuel rt lid all st.template st hs cid rv hm
      · exact ih h st ht cid rv hm

theorem find_resource_none (fuel : Nat) (assembly : List Stack) (lid rt : String)
    (h : find_resource fuel assembly lid rt = none) :
    ∀ st, st ∈ assembly → ∀ cid rv, (cid, rv) ∈ resourcesOf st.template →
      resMatches rt lid rv = false :=
  findInStacks_none fuel rt lid assembly assembly h

theorem find_resource_unique (fuel : Nat) (assembly : List Stack) (lid rt : String)
    (Sn : Stack) (cid : String) (rv : JValue)
    (hS : Sn ∈ assembly) (hmem : (cid, rv) ∈ resourcesOf Sn.template)
    (hmatch : resMatches rt lid rv = true)
    (huniq : ∀ st cid2 rv2, st ∈ assembly → (cid2, rv2) ∈ resourcesOf st.template →
      resMatches rt lid rv2 = true → st = Sn ∧ cid2 = cid ∧ rv2 = rv) :
    find_resource fuel assembly lid rt = some (rv, Sn, cid) := by
  cases h : find_resource fuel assembly lid rt with
  | none =>
    have := find_resource_none fuel assembly lid rt h Sn hS cid rv hmem
    rw [hmatch] at this
    cases this
  | some r =>
    obtain ⟨rv2, st2, cid2⟩ := r
    obtain ⟨hst2, hmem2, hmatch2⟩ := find_resource_sound fuel assembly lid rt _ h
    obtain ⟨he1, he2, he3⟩ := huniq st2 cid2 rv2 hst2 hmem2 hmatch2
    subst he1; subst he2; subst he3
    rfl

theorem dictInsertS_lookup_self (d : List (String × String)) (k v : String) :
    slookup (dictInsertS k v d) k = some v := by
  induction d with
  | nil => simp [dictInsertS, slookup]
  | cons p rest ih =>
    obtain ⟨a, b⟩ := p
    simp only [dictInsertS]
    by_cases ha : a = k
    · rw [if_pos ha]
      simp [slookup, ha]
    · rw [if_neg ha]
      simp only [slookup]
      rw [if_neg (fun hk => ha hk.symm)]
      exact ih

theorem dictInsertS_lookup_ne (d : List (String × String)) (k v k2 : String)
    (h : k2 ≠ k) : slookup (dictInsertS k v d) k2 = slookup d k2 := by
  induction d with
  | nil =>
    simp only [dictInsertS, slookup]
    rw [if_neg h]
  | cons p rest ih =>
    obtain ⟨a, b⟩ := p
    simp only [dictInsertS]
    by_cases ha : a = k
    · rw [if_pos ha]
      simp only [slookup]
      rw [if_neg (fun hk : k2 = a => h (hk.trans ha)),
        if_neg (fun hk : k2 = a => h (hk.trans ha))]
    · rw [if_neg ha]
      simp only [slookup]
      by_cases hk2 : k2 = a
      · rw [if_pos hk2, if_pos hk2]
      · rw [if_neg hk2, if_neg hk2]
        exact ih

theorem resolveEnv_stable (describe : String → String → String → Except PyError String)
    (stack : Stack) (sess : Session) :
    ∀ (es : List (String × JValue)) (acc m : List (String × String)) (k : String),
      k ∉ es.map Prod.fst →
      resolveEnv describe stack sess es acc = Except.ok m →
      slookup m k = slookup acc k := by
  intro es
  induction es with
  | nil =>
    intro acc m k _ h
    simp only [resolveEnv] at h
    cases h
    rfl
  | cons p rest ih =>
    intro acc m k hk h
    obtain ⟨k0, v0⟩ := p
    simp only [List.map_cons, List.mem_cons] at hk
    push_neg at hk
    simp only [resolveEnv] at h
    cases hr : resolveEntry describe stack sess v0 with
    | ok s =>
      rw [hr] at h
      rw [ih (dictInsertS k0 s acc) m k hk.2 h]
      exact dictInsertS_lookup_ne acc k0 s k hk.1
    | error e => rw [hr] at h; cases h

theorem resolveEnv_presence (describe : String → String → String → Except PyError String)
    (stack : Stack) (sess : Session) :
    ∀ (es : List (String × JValue)) (acc m : List (String × String)) (k : String),
      (slookup acc k).isSome = true →
      resolveEnv describe stack sess es acc = Except.ok m →
      (slookup m k).isSome = true := by
  intro es
  induction es with
  | nil =>
    intro acc m k hk h
    simp only [resolveEnv] at h
    cases h
    exact hk
  | cons p rest ih =>
    intro acc m k hk h
    obtain ⟨k0, v0⟩ := p
    simp only [resolveEnv] at h
    cases hr : resolveEntry describe stack sess v0 with
    | ok s =>
      rw [hr] at h
      apply ih (dictInsertS k0 s acc) m k _ h
      by_cases hkk : k = k0
      · subst hkk
        rw [dictInsertS_lookup_self]
        rfl
      · rw [dictInsertS_lookup_ne acc k0 s k hkk]
        exact hk
    | error e => rw [hr] at h; cases h

theorem resolveEnv_entries (describe : String → String → String → Except PyError String)
    (stack : Stack) (sess : Session) :
    ∀ (es : List (String × JValue)) (acc m : List (String × String)),
      resolveEnv describe stack sess es acc = Except.ok m →
      ∀ k v, (k, v) ∈ es →
        ∃ s, resolveEntry describe stack sess v = Except.ok s ∧
          (slookup m k).isSome = true := by
  intro es
  induction es with
  | nil => intro acc m _ k v hm; simp at hm
  | cons p rest ih =>
    intro acc m h k v hm
    obtain ⟨k0, v0⟩ := p
    simp only [resolveEnv] at h
    cases hr : resolveEntry describe stack sess v0 with
    | ok s =>
      rw [hr] at h
      rcases List.mem_cons.mp hm with hh | ht
      · rw [Prod.mk.injEq] at hh
        obtain ⟨hk, hv⟩ := hh
        subst hk; subst hv
        refine ⟨s, hr, ?_⟩
        apply resolveEnv_presence describe stack sess rest (dictInsertS k s acc) m k _ h
        rw [dictInsertS_lookup_self]
        rfl
      · exact ih (dictInsertS k0 s acc) m h k v ht
    | error e => rw [hr] at h; cases h

theorem resolveEnv_nodup (describe : String → String → String → Except PyError String)
    (stack : Stack) (sess : Session) :
    ∀ (es : List (String × JValue)) (acc m : List (String × String)),
      (es.map Prod.fst).Nodup →
      resolveEnv describe stack sess es acc = Except.ok m →
      ∀ k v, (k, v) ∈ es →
        ∃ s, resolveEntry describe stack sess v = Except.ok s ∧
          slookup m k = some s := by
  intro es
  induction es with
  | nil => intro acc m _ _ k v hm; simp at hm
  | cons p rest ih =>
    intro acc m hnd h k v hm
    obtain ⟨k0, v0⟩ := p
    simp only [List.map_cons, List.nodup_cons] at hnd
    simp only [resolveEnv] at h
    cases hr : resolveEntry describe stack sess v0 with
    | ok s =>
      rw [hr] at h
      rcases List.mem_cons.mp hm with hh | ht
      · rw [Prod.mk.injEq] at hh
        obtain ⟨hk, hv⟩ := hh
        subst hk; subst hv
        refine ⟨s, hr, ?_⟩
        rw [resolveEnv_stable describe stack sess rest (dictInsertS k s acc) m k hnd.1 h]
        exact dictInsertS_lookup_self acc k s
      · exact ih (dictInsertS k0 s acc) m hnd.2 h k v ht
    | error e => rw [hr] at h; cases h

theorem typeIs_dget (r : List (String × JValue)) (t : String)
    (h : typeIs r t = true) : dget r "Type" = some (JValue.str t) := by
  unfold typeIs at h
  cases hg : dget r "Type" with
  | none => rw [hg] at h; cases h
  | some v =>
    cases v with
    | str s =>
      rw [hg] at h
      dsimp only at h
      rw [beq_iff_eq.mp h]
    | int n => rw [hg] at h; cases h
    | bool b => rw [hg] at h; cases h
    | null => rw [hg] at h; cases h
    | dict es => rw [hg] at h; cases h
    | list xs => rw [hg] at h; cases h

theorem extract_lambda_ok (fn : List (String × JValue))
    (h : typeIs fn "AWS::Lambda::Function" = true) :
    extract_lambda_function_environment_vars fn = Except.ok (lambdaVarsOf fn) := by
  unfold extract_lambda_function_environment_vars
  rw [typeIs_dget fn _ h]
  dsimp only
  rw [if_pos rfl]

theorem extract_lambda_err (fn : List (String × JValue))
    (h : typeIs fn "AWS::Lambda::Function" = false) :
    extract_lambda_function_environment_vars fn =
      Except.error (PyError.valueError (typeMismatchMsg "AWS::Lambda::Function")) := by
  unfold extract_lambda_function_environment_vars
  unfold typeIs at h
  cases hg : dget fn "Type" with
  | none => rfl
  | some v =>
    cases v with
    | str s =>
      rw [hg] at h
      dsimp only at h
      dsimp only
      rw [if_neg (by simpa using h)]
    | int n => rfl
    | bool b => rfl
    | null => rfl
    | dict es => rfl
    | list xs => rfl

theorem extract_ecs_ok (task : List (String × JValue))
    (h : typeIs task "AWS::ECS::TaskDefinition" = true) :
    extract_ecs_task_definition_environment_vars task =
      Except.ok (flattenTaskEnv (containersOf task)) := by
  unfold extract_ecs_task_definition_environment_vars
  rw [typeIs_dget task _ h]
  dsimp only
  rw [if_pos rfl]

theorem generate_eq_of_find (describe : String → String → String → Except PyError String)
    (fuel : Nat) (assembly : List Stack) (sess : Session) (fid : String)
    (rv : JValue) (st : Stack) (cid : String)
    (hf : find_resource fuel assembly fid "AWS::Lambda::Function" = some (rv, st, cid)) :
    generate_sam_env_vars describe fuel assembly sess fid =
      match resolveEnv describe st sess (asDict (lambdaVarsOf (asDict rv))) [] with
      | Except.ok resolved => Except.ok [(fid, resolved)]
      | Except.error e => Except.error e := by
  have hm := (find_resource_sound fuel assembly fid "AWS::Lambda::Function" _ hf).2.2
  unfold resMatches at hm
  have hty : typeIs (asDict rv) "AWS::Lambda::Function" = true :=
    (Bool.and_eq_true .. ▸ hm).1
  unfold generate_sam_env_vars
  rw [hf]
  dsimp only
  rw [extract_lambda_ok (asDict rv) hty]
  dsimp only
  cases resolveEnv describe st sess (asDict (lambdaVarsOf (asDict rv))) [] with
  | ok resolved => rfl
  | error e => rfl

theorem jeq_str_right (x : JValue) (n : String) :
    jeq x (JValue.str n) = true ↔ x = JValue.str n := by
  cases x with
  | str a =>
    simp only [jeq, beq_iff_eq]
    exact ⟨fun h => by rw [h], fun h => by cases h; rfl⟩
  | int m => simp [jeq]
  | bool b => simp [jeq]
  | null => simp [jeq]
  | dict es => simp [jeq]
  | list xs => simp [jeq]

theorem jeq_str_left (n : String) (x : JValue) :
    jeq (JValue.str n) x = true ↔ x = JValue.str n := by
  cases x with
  | str a =>
    simp only [jeq, beq_iff_eq]
    exact ⟨fun h => by rw [h], fun h => by cases h; rfl⟩
  | int m => simp [jeq]
  | bool b => simp [jeq]
  | null => simp [jeq]
  | dict es => simp [jeq]
  | list xs => simp [jeq]

theorem dictInsertJ_lookup_self_str (d : List (JValue × JValue)) (n : String) (v : JValue) :
    jlookup (dictInsertJ (JValue.str n) v d) (JValue.str n) = some v := by
  induction d with
  | nil =>
    simp only [dictInsertJ, jlookup]
    rw [if_pos ((jeq_str_left n (JValue.str n)).mpr rfl)]
  | cons p rest ih =>
    obtain ⟨a, b⟩ := p
    simp only [dictInsertJ]
    by_cases ha : jeq a (JValue.str n) = true
    · rw [if_pos ha]
      simp only [jlookup]
      rw [if_pos ha]
    · rw [if_neg ha]
      simp only [jlookup]
      rw [if_neg ha]
      exact ih

theorem dictInsertJ_lookup_ne_str (d : List (JValue × JValue)) (k v : JValue) (n : String)
    (h : k ≠ JValue.str n) :
    jlookup (dictInsertJ k v d) (JValue.str n) = jlookup d (JValue.str n) := by
  induction d with
  | nil =>
    simp only [dictInsertJ, jlookup]
    rw [if_neg (fun hk => h ((jeq_str_right k n).mp hk))]
  | cons p rest ih =>
    obtain ⟨a, b⟩ := p
    simp only [dictInsertJ]
    by_cases ha : jeq a k = true
    · rw [if_pos ha]
      have han : ¬jeq a (JValue.str n) = true := by
        intro han
        have ha2 : a = JValue.str n := (jeq_str_right a n).mp han
        subst ha2
        exact h ((jeq_str_left n k).mp ha)
      simp only [jlookup]
      rw [if_neg han, if_neg han]
    · rw [if_neg ha]
      simp only [jlookup]
      by_cases han : jeq a (JValue.str n) = true
      · rw [if_pos han, if_pos han]
      · rw [if_neg han, if_neg han]
        exact ih

theorem insertEnvEntry_lookup (acc : List (JValue × JValue)) (e : JValue) (n : String) :
    jlookup (insertEnvEntry acc e) (JValue.str n) =
      match entryHit e n with
      | some v => some v
      | none => jlookup acc (JValue.str n) := by
  unfold insertEnvEntry entryHit
  cases hn : dget (asDict e) "Name" with
  | none => rfl
  | some nm =>
    cases hv : dget (asDict e) "Value" with
    | none => cases nm <;> rfl
    | some v =>
      dsimp only
      by_cases ht : (truthy nm && truthy v) = true
      · rw [if_pos ht]
        cases nm with
        | str m =>
          dsimp only
          by_cases hm : (m == n) = true
          · have hmn : m = n := beq_iff_eq.mp hm
            subst hmn
            rw [if_pos (by
                have h12 := Bool.and_eq_true .. ▸ ht
                rw [Bool.and_assoc]
                simp [h12.1, h12.2])]
            exact dictInsertJ_lookup_self_str acc m v
          · rw [if_neg (fun hcon => hm (Bool.and_eq_true .. ▸ hcon).2)]
            refine dictInsertJ_lookup_ne_str acc (JValue.str m) v n (fun hk => ?_)
            rw [JValue.str.injEq] at hk
            exact hm (beq_iff_eq.mpr hk)
        | int m =>
          exact dictInsertJ_lookup_ne_str acc (JValue.int m) v n (fun hk => by cases hk)
        | bool b =>
          exact dictInsertJ_lookup_ne_str acc (JValue.bool b) v n (fun hk => by cases hk)
        | null =>
          exact dictInsertJ_lookup_ne_str acc JValue.null v n (fun hk => by cases hk)
        | dict es =>
          exact dictInsertJ_lookup_ne_str acc (JValue.dict es) v n (fun hk => by cases hk)
        | list xs =>
          exact dictInsertJ_lookup_ne_str acc (JValue.list xs) v n (fun hk => by cases hk)
      · rw [if_neg ht]
        cases nm with
        | str m =>
          dsimp only
          rw [if_neg (by
              intro hcon
              rw [Bool.and_assoc] at hcon
              exact ht (Bool.and_eq_true .. ▸
                ⟨(Bool.and_eq_true .. ▸ hcon).1,
                 (Bool.and_eq_true .. ▸ (Bool.and_eq_true .. ▸ hcon).2).1⟩))]
        | int m => rfl
        | bool b => rfl
        | null => rfl
        | dict es => rfl
        | list xs => rfl

theorem foldl_insertEnvEntry_lookup (es : List JValue) :
    ∀ (acc : List (JValue × JValue)) (n : String),
      jlookup (es.foldl insertEnvEntry acc) (JValue.str n) =
        match lastTruthyStr es n with
        | some v => some v
        | none => jlookup acc (JValue.str n) := by
  induction es with
  | nil => intro acc n; rfl
  | cons e rest ih =>
    intro acc n
    simp only [List.foldl_cons, lastTruthyStr]
    rw [ih (insertEnvEntry acc e) n]
    cases lastTruthyStr rest n with
    | some v => rfl
    | none =>
      dsimp only
      rw [insertEnvEntry_lookup acc e n]

theorem flattenTaskEnv_foldl (cs : List JValue) :
    ∀ (acc : List (JValue × JValue)),
      cs.foldl (fun acc c => (envEntriesOf c).foldl insertEnvEntry acc) acc =
        (concatEntries cs).foldl insertEnvEntry acc := by
  induction cs with
  | nil => intro acc; rfl
  | cons c rest ih =>
    intro acc
    simp only [List.foldl_cons, concatEntries, List.foldl_append]
    exact ih ((envEntriesOf c).foldl insertEnvEntry acc)

theorem flattenTaskEnv_lookup (cs : List JValue) (n : String) :
    jlookup (flattenTaskEnv cs) (JValue.str n) = lastTruthyStr (concatEntries cs) n := by
  unfold flattenTaskEnv
  rw [flattenTaskEnv_foldl cs [], foldl_insertEnvEntry_lookup (concatEntries cs) [] n]
  cases lastTruthyStr (concatEntries cs) n with
  | some v => rfl
  | none => rfl

theorem dictInsertJ_truthy (d : List (JValue × JValue)) (k v : JValue)
    (hd : ∀ p ∈ d, truthy p.1 = true ∧ truthy p.2 = true)
    (hk : truthy k = true) (hv : truthy v = true) :
    ∀ p ∈ dictInsertJ k v d, truthy p.1 = true ∧ truthy p.2 = true := by
  induction d with
  | nil =>
    intro p hp
    simp only [dictInsertJ, List.mem_singleton] at hp
    subst hp
    exact ⟨hk, hv⟩
  | cons q rest ih =>
    obtain ⟨a, b⟩ := q
    intro p hp
    simp only [dictInsertJ] at hp
    by_cases ha : jeq a k = true
    · rw [if_pos ha] at hp
      rcases List.mem_cons.mp hp with hh | ht
      · subst hh
        exact ⟨(hd (a, b) (List.mem_cons_self _ _)).1, hv⟩
      · exact hd p (List.mem_cons_of_mem _ ht)
    · rw [if_neg ha] at hp
      rcases List.mem_cons.mp hp with hh | ht
      · subst hh
        exact hd (a, b) (List.mem_cons_self _ _)
      · exact ih (fun q hq => hd q (List.mem_cons_of_mem _ hq)) p ht

theorem insertEnvEntry_truthy (acc : List (JValue × JValue)) (e : JValue)
    (hacc : ∀ p ∈ acc, truthy p.1 = true ∧ truthy p.2 = true) :
    ∀ p ∈ insertEnvEntry acc e, truthy p.1 = true ∧ truthy p.2 = true := by
  unfold insertEnvEntry
  cases hn : dget (asDict e) "Name" with
  | none => exact hacc
  | some nm =>
    cases hv : dget (asDict e) "Value" with
    | none => exact hacc
    | some v =>
      dsimp only
      by_cases ht : (truthy nm && truthy v) = true
      · rw [if_pos ht]
        have h12 := Bool.and_eq_true .. ▸ ht
        exact dictInsertJ_truthy acc nm v hacc h12.1 h12.2
      · rw [if_neg ht]
        exact hacc

theorem foldl_insertEnvEntry_truthy (es : List JValue) :
    ∀ (acc : List (JValue × JValue)),
      (∀ p ∈ acc, truthy p.1 = true ∧ truthy p.2 = true) →
      ∀ p ∈ es.foldl insertEnvEntry acc, truthy p.1 = true ∧ truthy p.2 = true := by
  induction es with
  | nil => intro acc hacc; exact hacc
  | cons e rest ih =>
    intro acc hacc
    simp only [List.foldl_cons]
    exact ih (insertEnvEntry acc e) (insertEnvEntry_truthy acc e hacc)

theorem flattenTaskEnv_truthy (cs : List JValue) :
    ∀ p ∈ flattenTaskEnv cs, truthy p.1 = true ∧ truthy p.2 = true := by
  unfold flattenTaskEnv
  rw [flattenTaskEnv_foldl cs []]
  exact foldl_insertEnvEntry_truthy (concatEntries cs) [] (by intro p hp; simp at hp)

theorem resolveEntry_eq (d : String → String → String → Except PyError String)
    (stack : Stack) (sess : Session) (v : JValue) :
    (isRefVal v = true → resolveEntry d stack sess v = resolve_ref d stack sess v) ∧
    (isRefVal v = false → resolveEntry d stack sess v = Except.ok (pyStr v)) := by
  cases v with
  | dict es =>
    unfold resolveEntry isRefVal
    dsimp only
    constructor
    · intro h
      rw [if_pos h]
    · intro h
      rw [if_neg (by rw [h]; exact Bool.false_ne_true)]
  | str s => exact ⟨fun h => (nomatch h), fun _ => rfl⟩
  | int n => exact ⟨fun h => (nomatch h), fun _ => rfl⟩
  | bool b => exact ⟨fun h => (nomatch h), fun _ => rfl⟩
  | null => exact ⟨fun h => (nomatch h), fun _ => rfl⟩
  | list xs => exact ⟨fun h => (nomatch h), fun _ => rfl⟩

/-- C7: a resource whose type tag is not `AWS::Lambda::Function` makes the
function-kind extractor fail with the type-mismatch `ValueError`; it never
returns data. -/
theorem c7_wrong_type_extractor_fails (fn : List (String × JValue))
    (h : typeIs fn "AWS::Lambda::Function" = false) :
    extract_lambda_function_environment_vars fn =
      Except.error (PyError.valueError (typeMismatchMsg "AWS::Lambda::Function")) :=
  extract_lambda_err fn h

/-- Witness for C7 at the ECS task fixture. -/
theorem c7_wrong_type_extractor_fails_witness :
    typeIs exTask "AWS::Lambda::Function" = false ∧
    extract_lambda_function_environment_vars exTask =
      Except.error (PyError.valueError (typeMismatchMsg "AWS::Lambda::Function")) :=
  ⟨by decide, c7_wrong_type_extractor_fails exTask (by decide)⟩

/-- C9: every pair of the mapping returned by the task extractor has a truthy
name and a truthy value; in particular an entry whose `Value` is present but
falsy, such as the empty string, never appears in the result. -/
theorem c9_falsy_entries_skipped (task : List (String × JValue))
    (m : List (JValue × JValue))
    (h : extract_ecs_task_definition_environment_vars task = Except.ok m) :
    (∀ p ∈ m, truthy p.1 = true ∧ truthy p.2 = true) ∧
    (∀ n : JValue, (n, JValue.str "") ∉ m) := by
  have hm : m = flattenTaskEnv (containersOf task) := by
    unfold extract_ecs_task_definition_environment_vars at h
    cases hg : dget task "Type" with
    | none => rw [hg] at h; cases h
    | some v =>
      cases v with
      | str t =>
        rw [hg] at h
        dsimp only at h
        by_cases he : t = "AWS::ECS::TaskDefinition"
        · rw [if_pos he] at h
          cases h
          rfl
        · rw [if_neg he] at h; cases h
      | int n => rw [hg] at h; cases h
      | bool b => rw [hg] at h; cases h
      | null => rw [hg] at h; cases h
      | dict es => rw [hg] at h; cases h
      | list xs => rw [hg] at h; cases h
  subst hm
  refine ⟨flattenTaskEnv_truthy (containersOf task), ?_⟩
  intro n hn
  have := (flattenTaskEnv_truthy (containersOf task) (n, JValue.str "") hn).2
  cases this

/-- Witness for C9 at the ECS task fixture: the extractor succeeds there, and
the falsy-valued entries `E` and the second `X` candidate obey the theorem. -/
theorem c9_falsy_entries_skipped_witness :
    extract_ecs_task_definition_environment_vars exTask =
      Except.ok [(JValue.str "X", JValue.str "two")] ∧
    (∀ n : JValue, (n, JValue.str "") ∉ [(JValue.str "X", JValue.str "two")]) :=
  ⟨rfl, (c9_falsy_entries_skipped exTask [(JValue.str "X", JValue.str "two")] rfl).2⟩

/-- Counterexample to C5 as stated: `c5Entry` is missing neither its name nor
its value, so by the claim it should appear in the flattened mapping, but the
extractor returns the empty mapping. -/
theorem c5_counterexample :
    dget (asDict c5Entry) "Name" = some (JValue.str "X") ∧
    dget (asDict c5Entry) "Value" = some (JValue.str "") ∧
    extract_ecs_task_definition_environment_vars c5Task = Except.ok [] :=
  ⟨rfl, rfl, rfl⟩

/-- C5 (amended): for a task-kind resource the extractor flattens all
containers' entries into one mapping in which, for every name, the value is
that of the last entry carrying that name whose name and value are both
present and truthy; entries with a missing or falsy name or value are
skipped, and later containers overwrite earlier ones. -/
theorem c5_task_env_flatten (task : List (String × JValue))
    (h : typeIs task "AWS::ECS::TaskDefinition" = true) :
    ∃ m, extract_ecs_task_definition_environment_vars task = Except.ok m ∧
      ∀ n : String, jlookup m (JValue.str n) =
        lastTruthyStr (concatEntries (containersOf task)) n :=
  ⟨flattenTaskEnv (containersOf task), extract_ecs_ok task h,
    fun n => flattenTaskEnv_lookup (containersOf task) n⟩

/-- Witness for C5 at the ECS task fixture: the later container's value for
`X` wins. -/
theorem c5_task_env_flatten_witness :
    typeIs exTask "AWS::ECS::TaskDefinition" = true ∧
    (∃ m, extract_ecs_task_definition_environment_vars exTask = Except.ok m ∧
      ∀ n : String, jlookup m (JValue.str n) =
        lastTruthyStr (concatEntries (containersOf exTask)) n) ∧
    lastTruthyStr (concatEntries (containersOf exTask)) "X" = some (JValue.str "two") :=
  ⟨by decide, c5_task_env_flatten exTask (by decide), rfl⟩

theorem validateRef_error_resolve (stack : Stack) (sess : Session) (ref : JValue)
    (e : PyError) (h : validateRef ref = Except.error e) :
    ∀ d : String → String → String → Except PyError String,
      resolve_ref d stack sess ref = Except.error e := by
  intro d
  unfold resolve_ref
  rw [h]

/-- Counterexample to C2 as stated: a non-string value under `Ref` and an
empty-string value under `Ref` are rejected with one and the same error, so
the four rejection conditions are not pairwise distinguishable by the
caller. -/
theorem c2_counterexample :
    resolve_ref exDescribe exStack exSession (JValue.dict [("Ref", JValue.int 5)]) =
      resolve_ref exDescribe exStack exSession (JValue.dict [("Ref", JValue.str "")]) ∧
    resolve_ref exDescribe exStack exSession (JValue.dict [("Ref", JValue.int 5)]) =
      Except.error (PyError.valueError refValueMsg) :=
  ⟨rfl, rfl⟩

/-- C2 (amended): the four rejection conditions — non-mapping reference,
missing `Ref` key, non-string value, empty-string value — are each rejected
before any remote call (the result is an error independent of the describe
oracle); the malformed-shape error, the missing-key error and the bad-value
error are pairwise distinguishable, but a non-string value and an
empty-string value are reported with one and the same error. -/
theorem c2_validation_rejections (stack : Stack) (sess : Session) (ref : JValue) :
    ((∀ es, ref ≠ JValue.dict es) →
      ∀ d, resolve_ref d stack sess ref = Except.error (PyError.typeError refShapeMsg))
  ∧ (∀ es, ref = JValue.dict es → slookup es "Ref" = none →
      ∀ d, resolve_ref d stack sess ref = Except.error (PyError.valueError refKeyMsg))
  ∧ (∀ es v, ref = JValue.dict es → slookup es "Ref" = some v →
      ((∀ s, v ≠ JValue.str s) ∨ v = JValue.str "") →
      ∀ d, resolve_ref d stack sess ref = Except.error (PyError.valueError refValueMsg))
  ∧ PyError.typeError refShapeMsg ≠ PyError.valueError refKeyMsg
  ∧ PyError.typeError refShapeMsg ≠ PyError.valueError refValueMsg
  ∧ PyError.valueError refKeyMsg ≠ PyError.valueError refValueMsg := by
  refine ⟨?_, ?_, ?_, ?_, ?_, ?_⟩
  · intro hnd d
    apply validateRef_error_resolve
    unfold validateRef
    cases ref with
    | dict es => exact absurd rfl (hnd es)
    | str s => rfl
    | int n => rfl
    | bool b => rfl
    | null => rfl
    | list xs => rfl
  · intro es href hk d
    subst href
    apply validateRef_error_resolve
    unfold validateRef
    dsimp only
    rw [hk]
  · intro es v href hk hv d
    subst href
    apply validateRef_error_resolve
    unfold validateRef
    dsimp only
    rw [hk]
    rcases hv with hns | he
    · cases v with
      | str s => exact absurd rfl (hns s)
      | int n => rfl
      | bool b => rfl
      | null => rfl
      | dict es2 => rfl
      | list xs => rfl
    · subst he
      dsimp only
      rw [if_pos rfl]
  · decide
  · decide
  · decide

/-- Witness for C2 (amended) at concrete malformed references: a string
reference, a `Ref`-less mapping and an integer-valued `Ref`. -/
theorem c2_validation_rejections_witness :
    resolve_ref exDescribe exStack exSession (JValue.str "b") =
      Except.error (PyError.typeError refShapeMsg) ∧
    resolve_ref exDescribe exStack exSession (JValue.dict [("NotRef", JValue.str "b")]) =
      Except.error (PyError.valueError refKeyMsg) ∧
    resolve_ref exDescribe exStack exSession (JValue.dict [("Ref", JValue.null)]) =
      Except.error (PyError.valueError refValueMsg) :=
  ⟨(c2_validation_rejections exStack exSession (JValue.str "b")).1
      (fun es h => by cases h) exDescribe,
   (c2_validation_rejections exStack exSession (JValue.dict [("NotRef", JValue.str "b")])).2.1
      [("NotRef", JValue.str "b")] rfl rfl exDescribe,
   (c2_validation_rejections exStack exSession (JValue.dict [("Ref", JValue.null)])).2.2.1
      [("Ref", JValue.null)] JValue.null rfl rfl (Or.inl (fun s h => by cases h)) exDescribe⟩

/-- C4: for a structurally valid reference the region of the remote call is
the session's truthy `region_name` when there is one; otherwise the stack's
declared region unless it is the placeholder `unknown-region`; and when
neither applies, `resolve_ref` fails with the no-region `ValueError` without
consulting the describe oracle. -/
theorem c4_region_policy (describe : String → String → String → Except PyError String)
    (stack : Stack) (sess : Session) (ref : JValue) (lid : String)
    (h : validateRef ref = Except.ok lid) :
    (∀ r, sess.region_name = some r → r ≠ "" →
      resolve_ref describe stack sess ref = describe r stack.stack_name lid)
  ∧ ((sess.region_name = none ∨ sess.region_name = some "") →
      stack.region ≠ "unknown-region" →
      resolve_ref describe stack sess ref = describe stack.region stack.stack_name lid)
  ∧ ((sess.region_name = none ∨ sess.region_name = some "") →
      stack.region = "unknown-region" →
      ∀ d2, resolve_ref d2 stack sess ref =
        Except.error (PyError.valueError noRegionMsg)) := by
  refine ⟨?_, ?_, ?_⟩
  · intro r hr hne
    unfold resolve_ref
    rw [h]
    unfold deriveRegion
    rw [hr]
    dsimp only
    rw [if_neg hne]
  · intro hfalsy hreg
    unfold resolve_ref
    rw [h]
    unfold deriveRegion
    rcases hfalsy with hn | he
    · rw [hn]
      dsimp only
      rw [if_neg hreg]
    · rw [he]
      dsimp only
      rw [if_pos rfl, if_neg hreg]
  · intro hfalsy hreg d2
    unfold resolve_ref
    rw [h]
    unfold deriveRegion
    rcases hfalsy with hn | he
    · rw [hn]
      dsimp only
      rw [if_pos hreg]
    · rw [he]
      dsimp only
      rw [if_pos rfl, if_pos hreg]

/-- Witness for C4: the three arms at concrete sessions and stacks. -/
theorem c4_region_policy_witness :
    resolve_ref exDescribe exStack exSession (JValue.dict [("Ref", JValue.str "BucketLogicalId")]) =
      exDescribe "us-west-2" exStack.stack_name "BucketLogicalId" ∧
    resolve_ref exDescribe exStack (Session.mk none)
        (JValue.dict [("Ref", JValue.str "BucketLogicalId")]) =
      exDescribe "us-west-2" exStack.stack_name "BucketLogicalId" ∧
    resolve_ref exDescribe unknownStack (Session.mk none)
        (JValue.dict [("Ref", JValue.str "BucketLogicalId")]) =
      Except.error (PyError.valueError noRegionMsg) :=
  ⟨(c4_region_policy exDescribe exStack exSession
      (JValue.dict [("Ref", JValue.str "BucketLogicalId")]) "BucketLogicalId" rfl).1
      "us-west-2" rfl (by decide),
   (c4_region_policy exDescribe exStack (Session.mk none)
      (JValue.dict [("Ref", JValue.str "BucketLogicalId")]) "BucketLogicalId" rfl).2.1
      (Or.inl rfl) (by decide),
   (c4_region_policy exDescribe unknownStack (Session.mk none)
      (JValue.dict [("Ref", JValue.str "BucketLogicalId")]) "BucketLogicalId" rfl).2.2
      (Or.inl rfl) rfl exDescribe⟩

/-- C10: a mapping value without the key `Ref` (for example an `Fn::GetAtt`
intrinsic) is never resolved remotely and never fails: the orchestrator's
loop stringifies it, independent of the describe oracle, and continues. -/
theorem c10_non_ref_dict_stringified
    (d1 d2 : String → String → String → Except PyError String)
    (stack : Stack) (sess : Session) (es : List (String × JValue))
    (h : slookup es "Ref" = none) :
    resolveEntry d1 stack sess (JValue.dict es) = Except.ok (pyStr (JValue.dict es)) ∧
    resolveEntry d1 stack sess (JValue.dict es) = resolveEntry d2 stack sess (JValue.dict es) ∧
    ∀ (k : String) (rest : List (String × JValue)) (acc : List (String × String)),
      resolveEnv d1 stack sess ((k, JValue.dict es) :: rest) acc =
        resolveEnv d1 stack sess rest (dictInsertS k (pyStr (JValue.dict es)) acc) := by
  have hOne : ∀ d : String → String → String → Except PyError String,
      resolveEntry d stack sess (JValue.dict es) = Except.ok (pyStr (JValue.dict es)) := by
    intro d
    unfold resolveEntry
    dsimp only
    rw [h]
    dsimp only [Option.isSome]
    rw [if_neg Bool.false_ne_true]
  refine ⟨hOne d1, (hOne d1).trans (hOne d2).symm, ?_⟩
  intro k rest acc
  have hstep : resolveEnv d1 stack sess ((k, JValue.dict es) :: rest) acc =
      match resolveEntry d1 stack sess (JValue.dict es) with
      | Except.ok s => resolveEnv d1 stack sess rest (dictInsertS k s acc)
      | Except.error e => Except.error e := rfl
  rw [hstep, hOne d1]

/-- Witness for C10 at an `Fn::GetAtt` value. -/
theorem c10_non_ref_dict_stringified_witness :
    resolveEntry exDescribe exStack exSession
        (JValue.dict [("Fn::GetAtt", JValue.list [JValue.str "B", JValue.str "Arn"])]) =
      Except.ok (pyStr (JValue.dict
        [("Fn::GetAtt", JValue.list [JValue.str "B", JValue.str "Arn"])])) :=
  (c10_non_ref_dict_stringified exDescribe exDescribe exStack exSession
    [("Fn::GetAtt", JValue.list [JValue.str "B", JValue.str "Arn"])] rfl).1

/-- C3: the orchestrator fails with the "function not found" `ValueError`
when no Lambda resource matches the identifier; otherwise, whenever the
resolution loop succeeds, it returns the single-entry mapping keyed by the
caller-supplied identifier in which every `Ref`-shaped value is replaced by
the physical id resolved against the function's containing stack and every
other value is stringified unchanged. -/
theorem c3_generate_env (describe : String → String → String → Except PyError String)
    (fuel : Nat) (assembly : List Stack) (sess : Session) (fid : String) :
    (find_resource fuel assembly fid "AWS::Lambda::Function" = none →
      generate_sam_env_vars describe fuel assembly sess fid =
        Except.error (PyError.valueError (functionNotFoundMsg fid)))
  ∧ (∀ rv st cid m,
      find_resource fuel assembly fid "AWS::Lambda::Function" = some (rv, st, cid) →
      resolveEnv describe st sess (asDict (lambdaVarsOf (asDict rv))) [] = Except.ok m →
      generate_sam_env_vars describe fuel assembly sess fid = Except.ok [(fid, m)] ∧
      (((asDict (lambdaVarsOf (asDict rv))).map Prod.fst).Nodup →
        ∀ k v, (k, v) ∈ asDict (lambdaVarsOf (asDict rv)) →
          (isRefVal v = true →
            ∃ p, resolve_ref describe st sess v = Except.ok p ∧ slookup m k = some p) ∧
          (isRefVal v = false → slookup m k = some (pyStr v)))) := by
  constructor
  · intro hf
    unfold generate_sam_env_vars
    rw [hf]
  · intro rv st cid m hf hres
    constructor
    · rw [generate_eq_of_find describe fuel assembly sess fid rv st cid hf, hres]
    · intro hnd k v hm
      obtain ⟨s, hentry, hlook⟩ :=
        resolveEnv_nodup describe st sess (asDict (lambdaVarsOf (asDict rv))) [] m
          hnd hres k v hm
      constructor
      · intro hr
        refine ⟨s, ?_, hlook⟩
        rw [← (resolveEntry_eq describe st sess v).1 hr]
        exact hentry
      · intro hr
        have := (resolveEntry_eq describe st sess v).2 hr
        rw [this] at hentry
        cases hentry
        exact hlook

/-- Witness for C3 at the one-stack fixture: the spec's end-to-end example,
with the mocked describe call returning `my-bucket-abc123`. -/
theorem c3_generate_env_witness :
    find_resource 1 [exStack] "ExampleFunction" "AWS::Lambda::Function" =
      some (exLamRes, exStack, "ExampleFunction123") ∧
    generate_sam_env_vars exDescribe 1 [exStack] exSession "ExampleFunction" =
      Except.ok [("ExampleFunction",
        [("BUCKET_NAME", "my-bucket-abc123"), ("STAGE", "dev")])] :=
  ⟨rfl, ((c3_generate_env exDescribe 1 [exStack] exSession "ExampleFunction").2
    exLamRes exStack "ExampleFunction123"
    [("BUCKET_NAME", "my-bucket-abc123"), ("STAGE", "dev")] rfl rfl).1⟩

/-- C8: the orchestrator never yields a partial environment: either it fails
with an error, or the function was found, every extracted entry resolved,
and the returned mapping is the full single-entry mapping covering them
all. -/
theorem c8_no_partial_results (describe : String → String → String → Except PyError String)
    (fuel : Nat) (assembly : List Stack) (sess : Session) (fid : String) :
    (∃ e, generate_sam_env_vars describe fuel assembly sess fid = Except.error e) ∨
    (∃ rv st cid m,
      find_resource fuel assembly fid "AWS::Lambda::Function" = some (rv, st, cid) ∧
      generate_sam_env_vars describe fuel assembly sess fid = Except.ok [(fid, m)] ∧
      ∀ k v, (k, v) ∈ asDict (lambdaVarsOf (asDict rv)) →
        ∃ s, resolveEntry describe st sess v = Except.ok s ∧
          (slookup m k).isSome = true) := by
  cases hf : find_resource fuel assembly fid "AWS::Lambda::Function" with
  | none =>
    left
    refine ⟨PyError.valueError (functionNotFoundMsg fid), ?_⟩
    unfold generate_sam_env_vars
    rw [hf]
  | some r =>
    obtain ⟨rv, st, cid⟩ := r
    have hgen := generate_eq_of_find describe fuel assembly sess fid rv st cid hf
    cases hres : resolveEnv describe st sess (asDict (lambdaVarsOf (asDict rv))) [] with
    | error e =>
      left
      refine ⟨e, ?_⟩
      rw [hgen, hres]
    | ok m =>
      right
      refine ⟨rv, st, cid, m, rfl, ?_, ?_⟩
      · rw [hgen, hres]
      · intro k v hm
        exact resolveEnv_entries describe st sess (asDict (lambdaVarsOf (asDict rv)))
          [] m hres k v hm

/-- Witness for C8 at the one-stack fixture. -/
theorem c8_no_partial_results_witness :
    (∃ e, generate_sam_env_vars exDescribe 1 [exStack] exSession "ExampleFunction" =
      Except.error e) ∨
    (∃ rv st cid m,
      find_resource 1 [exStack] "ExampleFunction" "AWS::Lambda::Function" =
        some (rv, st, cid) ∧
      generate_sam_env_vars exDescribe 1 [exStack] exSession "ExampleFunction" =
        Except.ok [("ExampleFunction", m)] ∧
      ∀ k v, (k, v) ∈ asDict (lambdaVarsOf (asDict rv)) →
        ∃ s, resolveEntry exDescribe st exSession v = Except.ok s ∧
          (slookup m k).isSome = true) :=
  c8_no_partial_results exDescribe 1 [exStack] exSession "ExampleFunction"

/-- C1: in an assembly where the only resource matching the query lives in a
sibling stack denoted by a nested-stack resource (its template-file-derived
name equals that sibling's stack name), `find_resource` returns that
resource together with its containing stack and synthesized id. -/
theorem c1_nested_only_resource_found (fuel : Nat) (assembly : List Stack) (X T : String)
    (S0 Sn : Stack) (cid0 cid : String) (r0 rv : JValue)
    (hS0 : S0 ∈ assembly)
    (hr0 : (cid0, r0) ∈ resourcesOf S0.template)
    (hnest : typeIs (asDict r0) "AWS::CloudFormation::Stack" = true)
    (hurl : ∃ url : String, url ≠ "" ∧
      dgetD (asDict (dgetD (asDict r0) "Properties" (JValue.dict []))) "TemplateURL"
        (JValue.str "") = JValue.str url ∧ derivedName url = Sn.stack_name)
    (hSn : Sn ∈ assembly)
    (hmem : (cid, rv) ∈ resourcesOf Sn.template)
    (hmatch : resMatches T X rv = true)
    (huniq : ∀ st cid2 rv2, st ∈ assembly → (cid2, rv2) ∈ resourcesOf st.template →
      resMatches T X rv2 = true → st = Sn ∧ cid2 = cid ∧ rv2 = rv) :
    find_resource fuel assembly X T = some (rv, Sn, cid) :=
  find_resource_unique fuel assembly X T Sn cid rv hSn hmem hmatch huniq

/-- Witness for C1 at the two-stack fixture: the Lambda is only declared in
the nested sibling stack, and is found there. -/
theorem c1_nested_only_resource_found_witness :
    find_resource 1 c1Assembly "X" "AWS::Lambda::Function" =
      some (c1Lam, c1Nested, "X123") :=
  c1_nested_only_resource_found 1 c1Assembly "X" "AWS::Lambda::Function"
    c1Main c1Nested "Child" "X123" c1PointerRes c1Lam
    (List.Mem.head _)
    (show _ ∈ [("Child", c1PointerRes)] from List.Mem.head _)
    (by decide)
    ⟨"https://s3.example/LambdaNested.json", by decide, rfl, rfl⟩
    (List.Mem.tail _ (List.Mem.head _))
    (show _ ∈ [("X123", c1Lam)] from List.Mem.head _)
    (by decide)
    (by
      intro st cid2 rv2 hst hmem2 hm2
      cases hst with
      | head =>
        have hmem3 : (cid2, rv2) ∈ [("Child", c1PointerRes)] := hmem2
        cases hmem3 with
        | head => exact absurd hm2 (by decide)
        | tail _ htl => cases htl
      | tail _ htl =>
        cases htl with
        | head =>
          have hmem3 : (cid2, rv2) ∈ [("X123", c1Lam)] := hmem2
          cases hmem3 with
          | head => exact ⟨rfl, rfl, rfl⟩
          | tail _ htl2 => cases htl2
        | tail _ htl2 => cases htl2)

/-- Counterexample to C6 as stated: resource `B` of the first stack matches
the query, so by stack-list-then-resource-map order it would be the first
match; but the search recurses depth-first out of resource `A` into the
sibling stack `Nested` and returns its resource `C` instead. -/
theorem c6_counterexample :
    resMatches "AWS::CloudFormation::Stack" "X" c6ResB = true ∧
    ("B", c6ResB) ∈ resourcesOf (c6Assembly.headD c6Nested).template ∧
    (c6Assembly.headD c6Nested).stack_name = "Main" ∧
    (find_resource 1 c6Assembly "X" "AWS::CloudFormation::Stack").map
      (fun r => (r.2.1.stack_name, r.2.2)) = some ("Nested", "C") ∧
    ("Nested", "C") ≠ (("Main" : String), ("B" : String)) :=
  ⟨by decide,
   show _ ∈ [("A", c6ResA), ("B", c6ResB)] from List.Mem.tail _ (List.Mem.head _),
   rfl, rfl, by decide⟩


theorem trySiblings_eq_head
    (recurse : List (String × JValue) → Stack → Option FindRes)
    (enum : List (String × JValue) → Stack → List FindRes)
    (hpt : ∀ tpl st, recurse tpl st = (enum tpl st).head?) (name : String) :
    ∀ sts : List Stack,
      trySiblings recurse name sts = (visitSiblings enum name sts).head? := by
  intro sts
  induction sts with
  | nil => rfl
  | cons st rest ih =>
    simp only [trySiblings, visitSiblings]
    by_cases hn : st.stack_name = name
    · rw [if_pos hn, if_pos hn, hpt st.template st]
      cases he : enum st.template st with
      | nil =>
        dsimp only [List.head?]
        rw [List.nil_append]
        exact ih
      | cons r rs => rfl
    · rw [if_neg hn, if_neg hn]
      exact ih

theorem matchesScan_eq_head
    (recurse : List (String × JValue) → Stack → Option FindRes)
    (enum : List (String × JValue) → Stack → List FindRes)
    (rt lid : String) (all : List Stack)
    (hpt : ∀ tpl st, recurse tpl st = (enum tpl st).head?) :
    ∀ (res : List (String × JValue)) (cur : Stack),
      scanResources recurse rt lid all res cur =
        (matchesScan enum rt lid all res cur).head? := by
  intro res
  induction res with
  | nil => intro cur; rfl
  | cons p rest ih =>
    intro cur
    obtain ⟨cid, rv⟩ := p
    simp only [scanResources, matchesScan]
    by_cases h1 : typeIs (asDict rv) rt = true
    · rw [if_pos h1, if_pos h1]
      by_cases h2 : strContains (pathOf (asDict rv)) ("/" ++ lid ++ "/") = true
      · rw [if_pos h2, if_pos h2]
        rfl
      · rw [if_neg h2, if_neg h2]
        rw [List.nil_append]
        by_cases h3 : typeIs (asDict rv) "AWS::CloudFormation::Stack" = true
        · rw [if_pos h3, if_pos h3]
          cases hurl : dgetD (asDict (dgetD (asDict rv) "Properties" (JValue.dict [])))
              "TemplateURL" (JValue.str "") with
          | str url =>
            dsimp only
            by_cases h4 : url = ""
            · rw [if_pos h4, if_pos h4]
              rw [List.nil_append]
              exact ih cur
            · rw [if_neg h4, if_neg h4]
              rw [trySiblings_eq_head recurse enum hpt (derivedName url) all]
              cases hv : visitSiblings enum (derivedName url) all with
              | nil =>
                dsimp only [List.head?]
                rw [List.nil_append]
                exact ih cur
              | cons r rs => rfl
          | int n => dsimp only; rw [List.nil_append]; exact ih cur
          | bool b => dsimp only; rw [List.nil_append]; exact ih cur
          | null => dsimp only; rw [List.nil_append]; exact ih cur
          | dict es => dsimp only; rw [List.nil_append]; exact ih cur
          | list xs => dsimp only; rw [List.nil_append]; exact ih cur
        · rw [if_neg h3, if_neg h3]
          rw [List.nil_append]
          exact ih cur
    · rw [if_neg h1, if_neg h1]
      exact ih cur

theorem searchStack_eq_head (rt lid : String) (all : List Stack) :
    ∀ (fuel : Nat) (template : List (String × JValue)) (cur : Stack),
      searchStack fuel rt lid all template cur =
        (stackMatches fuel rt lid all template cur).head? := by
  intro fuel
  induction fuel with
  | zero =>
    intro template cur
    exact matchesScan_eq_head (fun _ _ => none) (fun _ _ => []) rt lid all
      (fun _ _ => rfl) (resourcesOf template) cur
  | succ n ih =>
    intro template cur
    exact matchesScan_eq_head (fun tpl st => searchStack n rt lid all tpl st)
      (fun tpl st => stackMatches n rt lid all tpl st) rt lid all
      (fun tpl st => ih tpl st) (resourcesOf template) cur

theorem findInStacks_eq_head (fuel : Nat) (rt lid : String) (all : List Stack) :
    ∀ sts : List Stack,
      findInStacks fuel rt lid all sts = (stacksMatches fuel rt lid all sts).head? := by
  intro sts
  induction sts with
  | nil => rfl
  | cons st rest ih =>
    simp only [findInStacks, stacksMatches]
    rw [searchStack_eq_head rt lid all fuel st.template st]
    cases hm : stackMatches fuel rt lid all st.template st with
    | nil =>
      dsimp only [List.head?]
      rw [List.nil_append]
      exact ih
    | cons r rs => rfl

theorem find_resource_eq_head (fuel : Nat) (assembly : List Stack) (lid rt : String) :
    find_resource fuel assembly lid rt = (dfsMatchList fuel rt lid assembly).head? :=
  findInStacks_eq_head fuel rt lid assembly assembly

theorem visitSiblings_mem_sound
    (enum : List (String × JValue) → Stack → List FindRes)
    (rt lid : String) (all : List Stack)
    (henum : ∀ st r, st ∈ all → r ∈ enum st.template st → SoundRes rt lid all r)
    (name : String) :
    ∀ (sts : List Stack) (r : FindRes), (∀ s, s ∈ sts → s ∈ all) →
      r ∈ visitSiblings enum name sts → SoundRes rt lid all r := by
  intro sts
  induction sts with
  | nil => intro r _ hr; simp [visitSiblings] at hr
  | cons st rest ih =>
    intro r hsub hr
    simp only [visitSiblings] at hr
    by_cases hn : st.stack_name = name
    · rw [if_pos hn] at hr
      rcases List.mem_append.mp hr with h | h
      · exact henum st r (hsub st (List.mem_cons_self st rest)) h
      · exact ih r (fun s hs => hsub s (List.mem_cons_of_mem st hs)) h
    · rw [if_neg hn] at hr
      exact ih r (fun s hs => hsub s (List.mem_cons_of_mem st hs)) hr

theorem matchesScan_mem_sound
    (enum : List (String × JValue) → Stack → List FindRes)
    (rt lid : String) (all : List Stack)
    (henum : ∀ st r, st ∈ all → r ∈ enum st.template st → SoundRes rt lid all r) :
    ∀ (res : List (String × JValue)) (cur : Stack) (r : FindRes),
      cur ∈ all → (∀ p, p ∈ res → p ∈ resourcesOf cur.template) →
      r ∈ matchesScan enum rt lid all res cur → SoundRes rt lid all r := by
  intro res
  induction res with
  | nil => intro cur r _ _ hr; simp [matchesScan] at hr
  | cons p rest ih =>
    intro cur r hcur hsub hr
    obtain ⟨cid, rv⟩ := p
    simp only [matchesScan] at hr
    have hrest : ∀ p, p ∈ rest → p ∈ resourcesOf cur.template :=
      fun q hq => hsub q (List.mem_cons_of_mem _ hq)
    by_cases h1 : typeIs (asDict rv) rt = true
    · rw [if_pos h1] at hr
      rcases List.mem_append.mp hr with hA | hBC
      · by_cases h2 : strContains (pathOf (asDict rv)) ("/" ++ lid ++ "/") = true
        · rw [if_pos h2] at hA
          rw [List.mem_singleton] at hA
          subst hA
          refine ⟨hcur, hsub _ (List.mem_cons_self _ rest), ?_⟩
          simp [resMatches, h1, h2]
        · rw [if_neg h2] at hA
          simp at hA
      · rcases List.mem_append.mp hBC with hB | hC
        · by_cases h3 : typeIs (asDict rv) "AWS::CloudFormation::Stack" = true
          · rw [if_pos h3] at hB
            cases hurl : dgetD (asDict (dgetD (asDict rv) "Properties" (JValue.dict [])))
                "TemplateURL" (JValue.str "") with
            | str url =>
              rw [hurl] at hB
              dsimp only at hB
              by_cases h4 : url = ""
              · rw [if_pos h4] at hB
                simp at hB
              · rw [if_neg h4] at hB
                exact visitSiblings_mem_sound enum rt lid all henum _ all r
                  (fun s hs => hs) hB
            | int n => rw [hurl] at hB; dsimp only at hB; simp at hB
            | bool b => rw [hurl] at hB; dsimp only at hB; simp at hB
            | null => rw [hurl] at hB; dsimp only at hB; simp at hB
            | dict es => rw [hurl] at hB; dsimp only at hB; simp at hB
            | list xs => rw [hurl] at hB; dsimp only at hB; simp at hB
          · rw [if_neg h3] at hB
            simp at hB
        · exact ih cur r hcur hrest hC
    · rw [if_neg h1] at hr
      exact ih cur r hcur hrest hr

theorem stackMatches_mem_sound (rt lid : String) (all : List Stack) :
    ∀ (fuel : Nat) (cur : Stack) (r : FindRes), cur ∈ all →
      r ∈ stackMatches fuel rt lid all cur.template cur → SoundRes rt lid all r := by
  intro fuel
  induction fuel with
  | zero =>
    intro cur r hcur hr
    exact matchesScan_mem_sound _ rt lid all (fun st r2 _ h2 => by simp at h2)
      (resourcesOf cur.template) cur r hcur (fun q hq => hq) hr
  | succ n ih =>
    intro cur r hcur hr
    exact matchesScan_mem_sound _ rt lid all (fun st r2 hst h2 => ih st r2 hst h2)
      (resourcesOf cur.template) cur r hcur (fun q hq => hq) hr

theorem stacksMatches_mem_sound (fuel : Nat) (rt lid : String) (all : List Stack) :
    ∀ (sts : List Stack) (r : FindRes), (∀ s, s ∈ sts → s ∈ all) →
      r ∈ stacksMatches fuel rt lid all sts → SoundRes rt lid all r := by
  intro sts
  induction sts with
  | nil => intro r _ hr; simp [stacksMatches] at hr
  | cons st rest ih =>
    intro r hsub hr
    simp only [stacksMatches] at hr
    rcases List.mem_append.mp hr with h | h
    · exact stackMatches_mem_sound rt lid all fuel st r
        (hsub st (List.mem_cons_self st rest)) h
    · exact ih r (fun s hs => hsub s (List.mem_cons_of_mem st hs)) h

theorem dfsMatchList_mem_sound (fuel : Nat) (rt lid : String) (assembly : List Stack)
    (r : FindRes) (hr : r ∈ dfsMatchList fuel rt lid assembly) :
    SoundRes rt lid assembly r :=
  stacksMatches_mem_sound fuel rt lid assembly assembly r (fun _ hs => hs) hr

/-- C6 (amended): `find_resource` returns exactly the head of the depth-first
enumeration of matches (stack-list order, then resource-map order, recursing
into nested-stack candidates before later resources), every enumerated match
lies in an assembly stack and satisfies both the type and path predicates;
hence if some stack contains a matching resource, the first such match in
depth-first order is returned, and if no resource matches anywhere, the
search returns "not found" and never throws. -/
theorem c6_first_match_dfs (fuel : Nat) (assembly : List Stack) (X T : String) :
    find_resource fuel assembly X T = (dfsMatchList fuel T X assembly).head? ∧
    (∀ r ∈ dfsMatchList fuel T X assembly,
      r.2.1 ∈ assembly ∧ (r.2.2, r.1) ∈ resourcesOf r.2.1.template ∧
        resMatches T X r.1 = true) ∧
    ((∃ st ∈ assembly, ∃ p ∈ resourcesOf st.template, resMatches T X p.2 = true) →
      ∃ rv st cid, find_resource fuel assembly X T = some (rv, st, cid) ∧
        st ∈ assembly ∧ (cid, rv) ∈ resourcesOf st.template ∧
        resMatches T X rv = true) ∧
    ((∀ st ∈ assembly, ∀ p ∈ resourcesOf st.template, resMatches T X p.2 = false) →
      find_resource fuel assembly X T = none) := by
  refine ⟨find_resource_eq_head fuel assembly X T,
    fun r hr => dfsMatchList_mem_sound fuel T X assembly r hr, ?_, ?_⟩
  · intro hex
    cases hf : find_resource fuel assembly X T with
    | none =>
      obtain ⟨st, hst, p, hp, hm⟩ := hex
      have hfalse := find_resource_none fuel assembly X T hf st hst p.1 p.2
        (Prod.mk.eta ▸ hp)
      rw [hm] at hfalse
      cases hfalse
    | some r =>
      obtain ⟨rv, st, cid⟩ := r
      obtain ⟨h1, h2, h3⟩ := find_resource_sound fuel assembly X T _ hf
      exact ⟨rv, st, cid, rfl, h1, h2, h3⟩
  · intro hall
    cases hf : find_resource fuel assembly X T with
    | none => rfl
    | some r =>
      obtain ⟨rv, st, cid⟩ := r
      obtain ⟨h1, h2, h3⟩ := find_resource_sound fuel assembly X T _ hf
      have := hall st h1 (cid, rv) h2
      rw [h3] at this
      cases this

/-- Witness for C6 (amended): in the two-stack scenario the depth-first
match list is `C` (reached through the nested pointer), then `B`, then `C`
again at top level, and the search returns its head; the empty assembly
yields "not found". -/
theorem c6_first_match_dfs_witness :
    dfsMatchList 1 "AWS::CloudFormation::Stack" "X" c6Assembly =
      [(c6ResC, c6Nested, "C"), (c6ResB, c6Main, "B"), (c6ResC, c6Nested, "C")] ∧
    find_resource 1 c6Assembly "X" "AWS::CloudFormation::Stack" =
      (dfsMatchList 1 "AWS::CloudFormation::Stack" "X" c6Assembly).head? ∧
    find_resource 1 [] "X" "AWS::CloudFormation::Stack" = none :=
  ⟨rfl, (c6_first_match_dfs 1 c6Assembly "X" "AWS::CloudFormation::Stack").1,
   (c6_first_match_dfs 1 [] "X" "AWS::CloudFormation::Stack").2.2.2
     (fun st hst => nomatch hst)⟩
